import Mathlib

/-!
Shallow embedding of the retry engine from `retryable-promise-ts`:
the token-bucket `RateLimiter` (src/utils/rateLimiter.ts), the HTTP
retry-hint extractor (src/core/httpRetrySignals.ts), the delay scheduler
`runDelayWithOverride` (src/core/delayWithOverride.ts) and the `retry`
attempt loop (src/retry.ts).

Modelling conventions:
* JS numbers appearing in rate-limiter arithmetic are modelled as `ℚ`
  (timestamps, tokens, jitter); integral millisecond quantities in the
  scheduler, the engine and the hint extractor are modelled as `ℤ`.
* Wall-clock time is virtual: every sleep advances an explicit clock by
  the slept duration, and nothing else advances it.
* Host functions `Number(…)` and `Date.parse(…)` are parameters of the
  model (`JsEnv`), as are `Date.now`, `instanceof Error`, and the random
  source.
* Fallible JS code (`throw` / `catch`) is modelled with `Except`.
-/

namespace RetryTs

/-! ## RateLimiter (src/utils/rateLimiter.ts) -/

inductive JitterMode
  | none
  | full
  | equal
deriving DecidableEq, Repr

structure RateLimitOptions where
  tokensPerInterval : ℚ
  interval : ℚ
  jitterMode : JitterMode
deriving DecidableEq, Repr

structure RateLimiterState where
  tokens : ℚ
  lastRefill : ℚ
deriving DecidableEq, Repr

namespace RateLimiter

/-- Constructor: `this.tokens = options.tokensPerInterval; this.lastRefill = Date.now()`. -/
def init (o : RateLimitOptions) (now : ℚ) : RateLimiterState :=
  { tokens := o.tokensPerInterval, lastRefill := now }

/-- `refill()`: add `⌊elapsed / interval⌋ * tokensPerInterval` tokens, clamped at
capacity, and set `lastRefill` to the current time, when at least one whole
interval elapsed. -/
def refill (o : RateLimitOptions) (s : RateLimiterState) (now : ℚ) : RateLimiterState :=
  let timePassed := now - s.lastRefill
  let intervals : ℤ := ⌊timePassed / o.interval⌋
  if 0 < intervals then
    { tokens := min o.tokensPerInterval (s.tokens + (intervals : ℚ) * o.tokensPerInterval),
      lastRefill := now }
  else s

/-- `calculateDelay()`: time until the next token, with jitter applied according
to the configured mode; `r` models a `Math.random()` draw. -/
def calculateDelay (o : RateLimitOptions) (lastRefill now r : ℚ) : ℚ :=
  let baseDelay := o.interval - (now - lastRefill)
  match o.jitterMode with
  | .full => r * baseDelay
  | .equal => baseDelay * (1/2 + r * (1/2))
  | .none => baseDelay

/-- `acquire()`: refill, sleep for `calculateDelay()` when no token is available
(a `setTimeout` wait, which treats a negative delay as zero), refill again after
the sleep, then decrement unconditionally. Returns the new state and the clock
after any sleep. -/
def acquire (o : RateLimitOptions) (s : RateLimiterState) (now r : ℚ) :
    RateLimiterState × ℚ :=
  let s1 := refill o s now
  if s1.tokens ≤ 0 then
    let now2 := now + max 0 (calculateDelay o s1.lastRefill now r)
    let s2 := refill o s1 now2
    ({ s2 with tokens := s2.tokens - 1 }, now2)
  else
    ({ s1 with tokens := s1.tokens - 1 }, now)

/-- One acquisition event: a call time and a random draw. -/
def acquireStep (o : RateLimitOptions) (s : RateLimiterState) (ev : ℚ × ℚ) :
    RateLimiterState :=
  (acquire o s ev.1 ev.2).1

end RateLimiter

/-! ## HTTP retry-hint extraction (src/core/httpRetrySignals.ts) -/

/-- A JS value in a position typed `string | number | undefined | unknown`:
`num n` is a finite number, `nan` a non-finite number, `str` a string, and
`undef` stands for `undefined` or any other non-number, non-string value. -/
inductive JsPrim
  | num (n : ℤ)
  | nan
  | str (s : String)
  | undef
deriving DecidableEq, Repr

/-- Host environment: the current time, `Date.parse` (`none` = `NaN`), and
`Number` applied to a string (`none` = `NaN` or a non-finite result). -/
structure JsEnv where
  now : ℤ
  dateParse : String → Option ℤ
  parseNum : String → Option ℤ

/-- `toFiniteNumber`: a number passes through when finite; a string goes
through `Number(…)`; anything else is `NaN`, hence `none`. -/
def toFiniteNumber (env : JsEnv) : JsPrim → Option ℤ
  | .num n => some n
  | .nan => none
  | .str s => env.parseNum s
  | .undef => none

/-- Result of calling `.get` on a `Headers`-like object: a value
(`string | null`) or a thrown exception. -/
inductive HeaderGetResult
  | val (v : Option String)
  | throws
deriving DecidableEq

/-- A header container: either a plain record (string-keyed map of
`string | number | undefined` values) or a `Headers`-like object exposing a
`get` accessor that may throw. -/
inductive HeaderContainer
  | record (entries : List (String × JsPrim))
  | headersLike (get : String → HeaderGetResult)

/-- `String(v)` for a header record value of type `string | number`. -/
def headerValueToString : JsPrim → Option String
  | .str s => some s
  | .num n => some (toString n)
  | .nan => some "NaN"
  | .undef => none

/-- `getHeader`: `Headers.get` (with any thrown exception caught and turned
into "no value"), or a case-insensitive scan of the record's own keys,
returning the first match (stringified when it is a string or number). -/
def getHeader (headers : HeaderContainer) (key : String) : Option String :=
  match headers with
  | .headersLike get =>
    match get key with
    | .throws => none
    | .val v => v
  | .record entries =>
    let low := key.toLower
    match entries.find? (fun kv => kv.1.toLower = low) with
    | some kv => headerValueToString kv.2
    | none => none

structure HttpResponseLike where
  status : Option ℤ := none
  headers : Option HeaderContainer := none

/-- The error shapes probed by the extractor: a direct `retryAfterMs` field,
an Axios-style `response`, top-level `headers` / `status`, and a nested
`cause.response`. -/
structure ErrorWithResponseLike where
  retryAfterMs : JsPrim := .undef
  response : Option HttpResponseLike := none
  headers : Option HeaderContainer := none
  status : Option ℤ := none
  causeResponse : Option HttpResponseLike := none

/-- `pickHeaders`: `err.response?.headers ?? err.headers ?? err.cause?.response?.headers`. -/
def pickHeaders (e : ErrorWithResponseLike) : Option HeaderContainer :=
  (e.response.bind (·.headers)) <|> e.headers <|> (e.causeResponse.bind (·.headers))

/-- `pickStatus`: `err.response?.status ?? err.status ?? err.cause?.response?.status`. -/
def pickStatus (e : ErrorWithResponseLike) : Option ℤ :=
  (e.response.bind (·.status)) <|> e.status <|> (e.causeResponse.bind (·.status))

/-- The `Retry-After` branch: a finite numeric value is seconds, scaled to
milliseconds and clamped at zero; otherwise an HTTP date, used only when it
lies in the future. -/
def retryAfterHint (env : JsEnv) (hs : HeaderContainer) : Option ℤ :=
  match getHeader hs "Retry-After" <|> getHeader hs "retry-after" with
  | some ra =>
    match env.parseNum ra with
    | some secs => some (max 0 (secs * 1000))
    | none =>
      match env.dateParse ra with
      | some date => if 0 < date - env.now then some (date - env.now) else none
      | none => none
  | none => none

/-- The rate-limit-reset branch: an epoch timestamp, heuristically seconds
below ten billion, used only when it lies in the future. -/
def resetHint (env : JsEnv) (hs : HeaderContainer) : Option ℤ :=
  match (getHeader hs "x-ratelimit-reset" <|> getHeader hs "x-rate-limit-reset" <|>
      getHeader hs "rate-limit-reset").bind env.parseNum with
  | some ts =>
    let epochMs := if 10000000000 < ts then ts else ts * 1000
    if 0 < epochMs - env.now then some (epochMs - env.now) else none
  | none => none

/-- Everything the header block of `extractRetryAfterMs` can produce. -/
def headerHint (env : JsEnv) (hs : HeaderContainer) : Option ℤ :=
  retryAfterHint env hs <|> resetHint env hs

/-- `extractRetryAfterMs`: the direct `retryAfterMs` field first, then the
header block, then the bare 429/503 status fallback of 1000 ms. A non-object
error (`none`) yields nothing. -/
def extractRetryAfterMs (env : JsEnv) (err : Option ErrorWithResponseLike) : Option ℤ :=
  match err with
  | none => none
  | some e =>
    match toFiniteNumber env e.retryAfterMs with
    | some n => some n
    | none =>
      match (pickHeaders e).bind (headerHint env) with
      | some v => some v
      | none =>
        if pickStatus e = some 429 ∨ pickStatus e = some 503 then some 1000 else none

/-! ## Delay scheduler (src/core/delayWithOverride.ts) -/

/-- The context handed to `nextDelayOverride` hooks. -/
structure DelayCtx (ε ρ : Type) where
  attempt : ℕ
  lastError : Option ε
  lastResult : Option ρ
  suggestedDelayMs : ℤ

/-- Arguments of `runDelayWithOverride`. `delayFn` is modelled by the
wall-clock duration it consumes for a given attempt; an override hook returns
a JS value, modelled as `some n` for a finite number and `none` for anything
else (`NaN`, `±Infinity`, a non-number). -/
structure DelayArgs (ε ρ : Type) where
  attempt : ℕ
  delayFn : Option (ℕ → ℕ)
  nextDelayOverride : Option (DelayCtx ε ρ → Option ℤ)
  maxElapsedTime : Option ℤ
  startTime : ℤ
  lastError : Option ε
  lastResult : Option ρ

/-- Result of one scheduler call: the returned boolean, the clock after all
waits, and the trace of initiated waits as (start time, duration) pairs. -/
structure DelayResult where
  ok : Bool
  now : ℤ
  waits : List (ℤ × ℤ)
deriving DecidableEq, Repr

/-- `hasBudget(extra)`: `elapsed + extra < maxElapsedTime`, vacuously true
without a configured budget. -/
def hasBudget (maxElapsedTime : Option ℤ) (startTime now extra : ℤ) : Bool :=
  match maxElapsedTime with
  | none => true
  | some m => decide (now - startTime + extra < m)

/-- `runDelayWithOverride`: pre-check the budget, run the base delay measuring
`waited`, consult the override (clamping a finite return value at zero and
falling back to `waited` otherwise), wait the extra `max(0, target - waited)`
unless it would reach the budget, and report whether budget remains. -/
def runDelayWithOverride {ε ρ : Type} (a : DelayArgs ε ρ) (now : ℤ) : DelayResult :=
  if hasBudget a.maxElapsedTime a.startTime now 0 = false then ⟨false, now, []⟩ else
  let waited : ℤ := match a.delayFn with | none => 0 | some dur => (dur a.attempt : ℤ)
  let waits1 : List (ℤ × ℤ) := match a.delayFn with | none => [] | some _ => [(now, waited)]
  let now1 := now + waited
  match a.nextDelayOverride with
  | none => ⟨hasBudget a.maxElapsedTime a.startTime now1 0, now1, waits1⟩
  | some ov =>
    let suggested := ov ⟨a.attempt, a.lastError, a.lastResult, waited⟩
    let target : ℤ := match suggested with | some n => max 0 n | none => waited
    let extra := max 0 (target - waited)
    if extra = 0 then ⟨hasBudget a.maxElapsedTime a.startTime now1 0, now1, waits1⟩
    else if hasBudget a.maxElapsedTime a.startTime now1 extra = false then ⟨false, now1, waits1⟩
    else ⟨hasBudget a.maxElapsedTime a.startTime (now1 + extra) 0, now1 + extra,
      waits1 ++ [(now1, extra)]⟩

/-! ## Retry engine (src/retry.ts)

Model of the attempt loop for configurations without an external signal, a
per-attempt timeout, or a rate limiter: in those configurations the merged
abort signal never fires and the `acquire` call is absent, so the reachable
code is exactly the budget check, the operation race, the result- and
error-path branches, and the scheduler calls embedded below. -/

/-- Outcome of one invocation of the wrapped operation: a settled value and
the wall-clock duration the invocation consumed. -/
inductive FnOutcome (ε ρ : Type)
  | ok (r : ρ) (dur : ℕ)
  | err (e : ε) (dur : ℕ)

/-- A value the engine rejects with: a raised JS value (from the operation or
escaping a callback) or the distinctly named budget error. -/
inductive EngineError (ε : Type)
  | raised (e : ε)
  | maxElapsedTimeExceeded
deriving DecidableEq, Repr

/-- Model parameters supplied by the host: `instanceof Error` and
`extractRetryAfterMs` on the thrown-value type. -/
structure ModelEnv (ε : Type) where
  isError : ε → Bool
  extractHint : ε → Option ℤ

/-- The engine's configuration surface reachable in the modelled fragment.
Callbacks may throw synchronously: `Except.error c` models `throw c`. -/
structure EngineOptions (ε ρ : Type) where
  retries : ℕ := 3
  delayFn : Option (ℕ → ℕ) := none
  onRetry : Option (ε → ℕ → Except ε Unit) := none
  retryIf : Option (ε → ℕ → Bool) := none
  retryOnResult : Option (ρ → ℕ → Bool) := none
  maxElapsedTime : Option ℤ := none
  nextDelayOverride : Option (DelayCtx ε ρ → Option ℤ) := none
  onGiveUp : Option (EngineError ε → ℕ → Except ε Unit) := none

/-- `wrapWithHttpHints`: the error-path override wrapper; a numeric hint
floors the inner override's value (`Math.max(hinted, inner)`, which is `NaN`
when the inner value is), and without a hint the inner value passes through. -/
def withHttpHints {ε ρ : Type} (extractHint : ε → Option ℤ)
    (base : Option (DelayCtx ε ρ → Option ℤ)) (err : ε) : DelayCtx ε ρ → Option ℤ :=
  fun ctx =>
    let inner : Option ℤ := match base with
      | some b => b ctx
      | none => some ctx.suggestedDelayMs
    match extractHint err, inner with
    | some h, some i => some (max h i)
    | some _, none => none
    | none, i => i

structure EngineState where
  attempts : ℕ
  invocations : ℕ
  now : ℤ
  waits : List (ℤ × ℤ)
deriving DecidableEq, Repr

/-- How one `retry(...)` call settles. `gaveUp` records whether the rejection
went through `fail` (which invokes `onGiveUp`, discarding its outcome) or
escaped the loop directly. -/
inductive RetryResult (ε ρ : Type)
  | resolved (r : ρ) (s : EngineState)
  | rejected (e : EngineError ε) (gaveUp : Bool) (s : EngineState)
  | outOfFuel (s : EngineState)

def RetryResult.finalState {ε ρ : Type} : RetryResult ε ρ → EngineState
  | .resolved _ s => s
  | .rejected _ _ s => s
  | .outOfFuel s => s

/-- `Date.now() - startTime >= maxElapsedTime`, the loop-entry budget check. -/
def budgetExceeded (maxElapsedTime : Option ℤ) (startTime now : ℤ) : Bool :=
  match maxElapsedTime with
  | none => false
  | some m => decide (m ≤ now - startTime)

/-- One pass of the `for (;;)` loop of `retry`, with fuel bounding the
recursion depth (the loop runs at most `retries + 1` times, see below).
`fn` maps the invocation index to that invocation's outcome. -/
def retryGo {ε ρ : Type} (env : ModelEnv ε) (o : EngineOptions ε ρ)
    (fn : ℕ → FnOutcome ε ρ) (startTime : ℤ) : ℕ → EngineState → RetryResult ε ρ
  | 0, s => .outOfFuel s
  | fuel + 1, s =>
    if budgetExceeded o.maxElapsedTime startTime s.now then
      .rejected .maxElapsedTimeExceeded true s
    else
      match fn s.invocations with
      | .ok r dur =>
        let s := { s with invocations := s.invocations + 1, now := s.now + (dur : ℤ) }
        let wantsRetry := match o.retryOnResult with
          | some pred => pred r (s.attempts + 1)
          | none => false
        if wantsRetry then
          let s := { s with attempts := s.attempts + 1 }
          if o.retries < s.attempts then .resolved r s
          else
            let d := runDelayWithOverride
              ⟨s.attempts, o.delayFn, o.nextDelayOverride, o.maxElapsedTime, startTime,
                none, some r⟩ s.now
            let s := { s with now := d.now, waits := s.waits ++ d.waits }
            if d.ok then retryGo env o fn startTime fuel s else .resolved r s
        else .resolved r s
      | .err e dur =>
        let s := { s with invocations := s.invocations + 1, now := s.now + (dur : ℤ) }
        let canRetry := decide (s.attempts < o.retries) &&
          (match o.retryIf with | none => true | some f => f e (s.attempts + 1))
        if canRetry then
          let s := { s with attempts := s.attempts + 1 }
          let cbOutcome : Except ε Unit :=
            if env.isError e then
              match o.onRetry with
              | some cb => cb e s.attempts
              | none => .ok ()
            else .ok ()
          match cbOutcome with
          | .error c => .rejected (.raised c) false s
          | .ok _ =>
            let d := runDelayWithOverride
              ⟨s.attempts, o.delayFn, some (withHttpHints env.extractHint o.nextDelayOverride e),
                o.maxElapsedTime, startTime, some e, none⟩ s.now
            let s := { s with now := d.now, waits := s.waits ++ d.waits }
            if d.ok then retryGo env o fn startTime fuel s
            else .rejected (.raised e) true s
        else .rejected (.raised e) true s

/-- `retry(fn, options)`: run the loop from a fresh state. `attempts` grows by
one on every iteration that loops, and the error path loops only while
`attempts < retries`, so `retries + 1` units of fuel can never run out. -/
def retry {ε ρ : Type} (env : ModelEnv ε) (o : EngineOptions ε ρ)
    (fn : ℕ → FnOutcome ε ρ) (startTime : ℤ) : RetryResult ε ρ :=
  retryGo env o fn startTime (o.retries + 1)
    { attempts := 0, invocations := 0, now := startTime, waits := [] }

/-! ## Rate-limiter selection (src/retry.ts line 108) -/

/-- What the engine uses for pacing: a freshly constructed limiter from inline
options, the caller's shared instance, or nothing. -/
inductive SelectedLimiter
  | fresh (opts : RateLimitOptions)
  | shared
  | noLimiter
deriving DecidableEq, Repr

/-- `rateLimit ? new RateLimiter(rateLimit) : providedRateLimiter`:
`providedGiven` states whether `options.rateLimiter` was supplied. -/
def selectRateLimiter (rateLimit : Option RateLimitOptions) (providedGiven : Bool) :
    SelectedLimiter :=
  match rateLimit with
  | some o => .fresh o
  | none => if providedGiven then .shared else .noLimiter

/-! ## Helper lemmas on the rate limiter -/

lemma refill_tokens_le (o : RateLimitOptions) (s : RateLimiterState) (now : ℚ)
    (h : s.tokens ≤ o.tokensPerInterval) :
    (RateLimiter.refill o s now).tokens ≤ o.tokensPerInterval := by
  unfold RateLimiter.refill
  dsimp only
  split
  · exact min_le_left _ _
  · exact h

lemma acquire_tokens_le (o : RateLimitOptions) (s : RateLimiterState) (now r : ℚ)
    (h : s.tokens ≤ o.tokensPerInterval) :
    (RateLimiter.acquire o s now r).1.tokens ≤ o.tokensPerInterval := by
  simp only [RateLimiter.acquire]
  split
  · dsimp only
    have h2 := refill_tokens_le o (RateLimiter.refill o s now)
      (now + max 0 (RateLimiter.calculateDelay o (RateLimiter.refill o s now).lastRefill now r))
      (refill_tokens_le o s now h)
    linarith
  · dsimp only
    have h1 := refill_tokens_le o s now h
    linarith

lemma foldl_acquire_tokens_le (o : RateLimitOptions) (s : RateLimiterState)
    (evs : List (ℚ × ℚ)) (h : s.tokens ≤ o.tokensPerInterval) :
    (evs.foldl (RateLimiter.acquireStep o) s).tokens ≤ o.tokensPerInterval := by
  induction evs generalizing s with
  | nil => exact h
  | cons ev tl ih =>
    exact ih _ (acquire_tokens_le o s ev.1 ev.2 h)

lemma refill_idle_formula (o : RateLimitOptions) (s : RateLimiterState) (k : ℕ)
    (hI : 0 < o.interval) (h : s.tokens ≤ o.tokensPerInterval) :
    (RateLimiter.refill o s (s.lastRefill + (k : ℚ) * o.interval)).tokens =
      min o.tokensPerInterval (s.tokens + (k : ℚ) * o.tokensPerInterval) := by
  have harg : (s.lastRefill + (k : ℚ) * o.interval - s.lastRefill) / o.interval = (k : ℚ) := by
    field_simp
  unfold RateLimiter.refill
  dsimp only
  rw [harg, Int.floor_natCast]
  cases k with
  | zero => simp [min_eq_right h]
  | succ n => simp

/-! ## Helper lemmas on the delay scheduler -/

/-- Without a configured budget the scheduler always reports success. -/
lemma runDelay_ok_of_no_budget {ε ρ : Type} (a : DelayArgs ε ρ) (now : ℤ)
    (h : a.maxElapsedTime = none) : (runDelayWithOverride a now).ok = true := by
  unfold runDelayWithOverride
  simp only [hasBudget, h]
  rw [if_neg (by simp)]
  cases hnd : a.nextDelayOverride with
  | none => rfl
  | some ov =>
    dsimp only
    split
    · rfl
    · rw [if_neg (by simp)]

/-- Every wait the scheduler initiates starts strictly before the budget
deadline `startTime + B`. -/
lemma runDelay_waits_within_budget {ε ρ : Type} (a : DelayArgs ε ρ) (now B : ℤ)
    (hB : a.maxElapsedTime = some B) :
    ∀ w ∈ (runDelayWithOverride a now).waits, w.1 - a.startTime < B := by
  obtain ⟨att, df, ndo, met, st, le, lr⟩ := a
  simp only at hB ⊢
  subst hB
  unfold runDelayWithOverride
  simp only [hasBudget]
  split
  · intro w hw
    simp at hw
  · rename_i h0
    simp only [Bool.not_eq_false, decide_eq_true_eq] at h0
    have hnow : now - st < B := by omega
    cases df with
    | none =>
      cases ndo with
      | none =>
        intro w hw
        simp at hw
      | some ov =>
        dsimp only
        split
        · intro w hw; simp at hw
        · split
          · intro w hw; simp at hw
          · rename_i hextra hbudget
            simp only [Bool.not_eq_false, decide_eq_true_eq] at hbudget
            intro w hw
            simp only [List.nil_append, List.mem_singleton] at hw
            subst hw
            dsimp only
            omega
    | some dur =>
      cases ndo with
      | none =>
        intro w hw
        simp only [List.mem_singleton] at hw
        subst hw
        exact hnow
      | some ov =>
        dsimp only
        split
        · intro w hw
          simp only [List.mem_singleton] at hw
          subst hw
          exact hnow
        · split
          · intro w hw
            simp only [List.mem_singleton] at hw
            subst hw
            exact hnow
          · rename_i hextra hbudget
            simp only [Bool.not_eq_false, decide_eq_true_eq] at hbudget
            intro w hw
            simp only [List.mem_append, List.mem_singleton] at hw
            rcases hw with hw | hw <;> subst hw
            · exact hnow
            · dsimp only
              omega

/-! ## Helper lemmas on the retry engine -/

/-- A permanently failing operation under `retries = n` and no budget: from a
state with `attempts + k = n` and fuel `k + 1`, the loop performs exactly
`k + 1` further invocations and rejects with the last invocation's error. -/
lemma retryGo_all_fail {ε ρ : Type} (env : ModelEnv ε) (n : ℕ)
    (df : Option (ℕ → ℕ)) (ndo : Option (DelayCtx ε ρ → Option ℤ))
    (errs : ℕ → ε) (durs : ℕ → ℕ) (startTime : ℤ) :
    ∀ (k : ℕ) (s : EngineState), s.attempts + k = n →
      ∃ s' : EngineState,
        retryGo env { retries := n, delayFn := df, nextDelayOverride := ndo }
          (fun i => FnOutcome.err (errs i) (durs i)) startTime (k + 1) s =
          .rejected (.raised (errs (s.invocations + k))) true s' ∧
        s'.invocations = s.invocations + k + 1 := by
  intro k
  induction k with
  | zero =>
    intro s hs
    have hlt : ¬ (s.attempts < n) := by omega
    rw [retryGo]
    simp only [budgetExceeded, Bool.false_eq_true, if_false, Bool.and_true,
      decide_eq_true_eq]
    rw [if_neg hlt]
    exact ⟨_, rfl, rfl⟩
  | succ k ih =>
    intro s hs
    have hlt : s.attempts < n := by omega
    rw [retryGo]
    simp only [budgetExceeded, Bool.false_eq_true, if_false, Bool.and_true,
      decide_eq_true_eq]
    rw [if_pos hlt]
    simp only [ite_self]
    rw [runDelay_ok_of_no_budget _ _ rfl]
    simp only [if_true]
    obtain ⟨s', heq, hinv⟩ := ih
      { attempts := s.attempts + 1, invocations := s.invocations + 1,
        now := (runDelayWithOverride
          ⟨s.attempts + 1, df,
            some (withHttpHints env.extractHint ndo (errs s.invocations)), none, startTime,
            some (errs s.invocations), none⟩ (s.now + (durs s.invocations : ℤ))).now,
        waits := s.waits ++ (runDelayWithOverride
          ⟨s.attempts + 1, df,
            some (withHttpHints env.extractHint ndo (errs s.invocations)), none, startTime,
            some (errs s.invocations), none⟩ (s.now + (durs s.invocations : ℤ))).waits }
      (by simp; omega)
    refine ⟨s', ?_, by simp at hinv; omega⟩
    have hidx : s.invocations + 1 + k = s.invocations + (k + 1) := by omega
    simp only at heq
    rw [hidx] at heq
    exact heq

/-- Under a configured budget `B`, every wait the engine ever initiates
(through the delay scheduler) starts strictly before `startTime + B`. -/
lemma retryGo_waits_bounded {ε ρ : Type} (env : ModelEnv ε) (o : EngineOptions ε ρ)
    (fn : ℕ → FnOutcome ε ρ) (startTime B : ℤ) (hB : o.maxElapsedTime = some B) :
    ∀ (fuel : ℕ) (s : EngineState), (∀ w ∈ s.waits, w.1 - startTime < B) →
      ∀ w ∈ (retryGo env o fn startTime fuel s).finalState.waits, w.1 - startTime < B := by
  intro fuel
  induction fuel with
  | zero => intro s hs; exact hs
  | succ fuel ih =>
    intro s hs w hw
    rw [retryGo] at hw
    split at hw
    · exact hs w hw
    · split at hw
      · -- success path
        rename_i r dur heq
        dsimp only at hw
        split at hw
        · split at hw
          · exact hs w hw
          · split at hw
            · refine ih _ ?_ w hw
              intro v hv
              rcases List.mem_append.mp hv with hv | hv
              · exact hs v hv
              · exact runDelay_waits_within_budget _ _ B hB v hv
            · simp only [RetryResult.finalState] at hw
              rcases List.mem_append.mp hw with hw | hw
              · exact hs w hw
              · exact runDelay_waits_within_budget _ _ B hB w hw
        · exact hs w hw
      · -- failure path
        rename_i e dur heq
        dsimp only at hw
        split at hw
        · split at hw
          · exact hs w hw
          · split at hw
            · refine ih _ ?_ w hw
              intro v hv
              rcases List.mem_append.mp hv with hv | hv
              · exact hs v hv
              · exact runDelay_waits_within_budget _ _ B hB v hv
            · simp only [RetryResult.finalState] at hw
              rcases List.mem_append.mp hw with hw | hw
              · exact hs w hw
              · exact runDelay_waits_within_budget _ _ B hB w hw
        · exact hs w hw

/-- The engine's result never depends on the `onGiveUp` callback: its outcome
is discarded (`try { await onGiveUp?.(…) } catch { }`). -/
lemma retryGo_ignores_onGiveUp {ε ρ : Type} (env : ModelEnv ε) (R : ℕ)
    (df : Option (ℕ → ℕ)) (oR : Option (ε → ℕ → Except ε Unit))
    (rif : Option (ε → ℕ → Bool)) (ror : Option (ρ → ℕ → Bool)) (met : Option ℤ)
    (ndo : Option (DelayCtx ε ρ → Option ℤ))
    (og₁ og₂ : Option (EngineError ε → ℕ → Except ε Unit))
    (fn : ℕ → FnOutcome ε ρ) (st : ℤ) :
    ∀ (fuel : ℕ) (s : EngineState),
      retryGo env ⟨R, df, oR, rif, ror, met, ndo, og₁⟩ fn st fuel s =
      retryGo env ⟨R, df, oR, rif, ror, met, ndo, og₂⟩ fn st fuel s := by
  intro fuel
  induction fuel with
  | zero => intro s; rfl
  | succ fuel ih =>
    intro s
    rw [retryGo, retryGo]
    simp only [ih]

/-! ## Theorems for the claims -/

/-- C2 (code bug): the claim requires that a failure thrown from `onRetry` or
`onGiveUp` never changes what the invocation settles with. The `onGiveUp`
half holds — the engine's result is independent of the `onGiveUp` field. But
`onRetry` is invoked unguarded inside the catch block: with `retries = 1`, an
operation that always throws error `0`, and an `onRetry` that throws `7`, the
engine rejects with the callback's error `7` after a single invocation and
without the give-up path, instead of rejecting with the real final error `0`
after two invocations. -/
theorem claim_C2_callback_failure_changes_outcome :
    (∀ (ε ρ : Type) (env : ModelEnv ε) (R : ℕ) (df : Option (ℕ → ℕ))
      (oR : Option (ε → ℕ → Except ε Unit)) (rif : Option (ε → ℕ → Bool))
      (ror : Option (ρ → ℕ → Bool)) (met : Option ℤ)
      (ndo : Option (DelayCtx ε ρ → Option ℤ))
      (og₁ og₂ : Option (EngineError ε → ℕ → Except ε Unit))
      (fn : ℕ → FnOutcome ε ρ) (st : ℤ),
      retry env ⟨R, df, oR, rif, ror, met, ndo, og₁⟩ fn st =
      retry env ⟨R, df, oR, rif, ror, met, ndo, og₂⟩ fn st) ∧
    retry (ε := ℕ) (ρ := Unit) ⟨fun _ => true, fun _ => none⟩
      { retries := 1, onRetry := some fun _ _ => .error 7 }
      (fun _ => .err 0 0) 0 =
      .rejected (.raised 7) false ⟨1, 1, 0, []⟩ :=
  ⟨fun _ _ env R df oR rif ror met ndo og₁ og₂ fn st =>
    retryGo_ignores_onGiveUp env R df oR rif ror met ndo og₁ og₂ fn st (R + 1) _,
   rfl⟩

/-- C6: with a configured elapsed-time budget `B`, the scheduler never
initiates a wait starting at or past `startTime + B` (the budget is checked
before the base wait, and an extra wait that would reach `B` is skipped);
consequently no wait the whole engine run initiates starts at or past the
deadline; and a budget that is already exhausted on entry makes the engine
reject with the budget error without invoking the operation or waiting. -/
theorem claim_C6_no_wait_starts_at_or_past_budget :
    (∀ (ε ρ : Type) (a : DelayArgs ε ρ) (now B : ℤ), a.maxElapsedTime = some B →
      ∀ w ∈ (runDelayWithOverride a now).waits, w.1 - a.startTime < B) ∧
    (∀ (ε ρ : Type) (env : ModelEnv ε) (o : EngineOptions ε ρ) (fn : ℕ → FnOutcome ε ρ)
      (startTime B : ℤ), o.maxElapsedTime = some B →
      ∀ w ∈ (retry env o fn startTime).finalState.waits, w.1 - startTime < B) ∧
    (∀ (ε ρ : Type) (env : ModelEnv ε) (o : EngineOptions ε ρ) (fn : ℕ → FnOutcome ε ρ)
      (startTime B : ℤ), o.maxElapsedTime = some B → B ≤ 0 →
      retry env o fn startTime =
        .rejected .maxElapsedTimeExceeded true ⟨0, 0, startTime, []⟩) := by
  refine ⟨fun ε ρ a now B hB => runDelay_waits_within_budget a now B hB,
    fun ε ρ env o fn startTime B hB =>
      retryGo_waits_bounded env o fn startTime B hB (o.retries + 1) _
        (fun w hw => absurd hw (List.not_mem_nil w)),
    fun ε ρ env o fn startTime B hB hB0 => ?_⟩
  unfold retry
  rw [retryGo]
  rw [if_pos ?hcond]
  case hcond =>
    simp only [budgetExceeded, hB, decide_eq_true_eq]
    omega

/-- Witness for C6: budget 100 ms, base delay 5 ms, two failing invocations:
the single recorded wait starts at time 0, before the deadline. -/
theorem claim_C6_no_wait_starts_at_or_past_budget_witness :
    ((0 : ℤ), (5 : ℤ)) ∈ (retry (ε := ℕ) (ρ := Unit) ⟨fun _ => true, fun _ => none⟩
      { retries := 1, delayFn := some fun _ => 5, maxElapsedTime := some 100 }
      (fun _ => .err 0 0) 0).finalState.waits ∧
    (0 : ℤ) - 0 < 100 :=
  ⟨by decide,
   claim_C6_no_wait_starts_at_or_past_budget.2.1 ℕ Unit ⟨fun _ => true, fun _ => none⟩
     { retries := 1, delayFn := some fun _ => 5, maxElapsedTime := some 100 }
     (fun _ => .err 0 0) 0 100 rfl ((0 : ℤ), (5 : ℤ)) (by decide)⟩

/-- C1: with `retries = n` (and no budget, signal, timeout or rate limiter
configured), an operation that fails on every invocation is invoked exactly
`n + 1` times and the engine rejects with the error of the last invocation,
after the give-up path. The base delay function and override hook are
arbitrary. -/
theorem claim_C1_permanent_failure_invoked_n_plus_1_times :
    ∀ (ε ρ : Type) (env : ModelEnv ε) (n : ℕ) (df : Option (ℕ → ℕ))
      (ndo : Option (DelayCtx ε ρ → Option ℤ)) (errs : ℕ → ε) (durs : ℕ → ℕ)
      (startTime : ℤ),
      ∃ s : EngineState,
        retry env { retries := n, delayFn := df, nextDelayOverride := ndo }
          (fun i => FnOutcome.err (errs i) (durs i)) startTime =
          .rejected (.raised (errs n)) true s ∧
        s.invocations = n + 1 := by
  intro ε ρ env n df ndo errs durs startTime
  obtain ⟨s', heq, hinv⟩ := retryGo_all_fail env n df ndo errs durs startTime n
    ⟨0, 0, startTime, []⟩ (by simp)
  simp only [Nat.zero_add] at heq hinv
  exact ⟨s', heq, by omega⟩

/-- C5: with an override hook present, the override's return value is clamped
to a non-negative target (an invalid or non-finite value falls back to the
measured base wait `waited`, making the adjustment a no-op), the extra wait
performed equals `max(0, target − waited)`, and the effective wait never
shortens the base wait already performed. Stated without a budget so that
every computed wait is actually performed. -/
theorem claim_C5_override_clamped_extra_wait :
    ∀ (ε ρ : Type) (a : DelayArgs ε ρ) (now : ℤ)
      (ov : DelayCtx ε ρ → Option ℤ) (dur : ℕ → ℕ),
      a.maxElapsedTime = none →
      a.nextDelayOverride = some ov →
      a.delayFn = some dur →
      (0 : ℤ) ≤ (match ov ⟨a.attempt, a.lastError, a.lastResult, (dur a.attempt : ℤ)⟩ with
        | some n => max 0 n
        | none => (dur a.attempt : ℤ)) ∧
      (runDelayWithOverride a now).now = now + (dur a.attempt : ℤ) +
        max 0 ((match ov ⟨a.attempt, a.lastError, a.lastResult, (dur a.attempt : ℤ)⟩ with
          | some n => max 0 n
          | none => (dur a.attempt : ℤ)) - (dur a.attempt : ℤ)) ∧
      now + (dur a.attempt : ℤ) ≤ (runDelayWithOverride a now).now ∧
      (runDelayWithOverride a now).waits = (now, (dur a.attempt : ℤ)) ::
        (if max 0 ((match ov ⟨a.attempt, a.lastError, a.lastResult, (dur a.attempt : ℤ)⟩ with
            | some n => max 0 n
            | none => (dur a.attempt : ℤ)) - (dur a.attempt : ℤ)) = 0 then []
          else [(now + (dur a.attempt : ℤ),
            max 0 ((match ov ⟨a.attempt, a.lastError, a.lastResult, (dur a.attempt : ℤ)⟩ with
              | some n => max 0 n
              | none => (dur a.attempt : ℤ)) - (dur a.attempt : ℤ)))]) := by
  intro ε ρ a now ov dur h1 h2 h3
  obtain ⟨att, df, ndo, met, st, le, lr⟩ := a
  simp only at h1 h2 h3 ⊢
  subst h1
  subst h2
  subst h3
  have htarget : (0 : ℤ) ≤ (match ov ⟨att, le, lr, (dur att : ℤ)⟩ with
      | some n => max 0 n
      | none => (dur att : ℤ)) := by
    cases ov ⟨att, le, lr, (dur att : ℤ)⟩ with
    | none => exact Int.natCast_nonneg _
    | some n => exact le_max_left _ _
  refine ⟨htarget, ?_⟩
  unfold runDelayWithOverride
  simp only [hasBudget]
  rw [if_neg (by simp)]
  split
  · rename_i hzero
    dsimp only
    rw [hzero]
    refine ⟨by omega, by omega, ?_⟩
    rfl
  · rename_i hnz
    rw [if_neg (show ¬((true : Bool) = false) by simp)]
    dsimp only
    refine ⟨rfl, by omega, ?_⟩
    rfl

/-- Witness for C5: attempt 1, base wait 3 ms, override suggesting −7 (clamped
to target 0, a no-op): the scheduler ends at `now + 3` having waited only the
base delay. -/
theorem claim_C5_override_clamped_extra_wait_witness :
    (runDelayWithOverride (ε := Unit) (ρ := Unit)
      ⟨1, some fun _ => 3, some fun _ => some (-7), none, 0, none, none⟩ 10).now =
      10 + (3 : ℤ) + max 0 (max 0 (-7) - 3) :=
  (claim_C5_override_clamped_extra_wait Unit Unit
    ⟨1, some fun _ => 3, some fun _ => some (-7), none, 0, none, none⟩ 10
    (fun _ => some (-7)) (fun _ => 3) rfl rfl rfl).2.1

/-- C9: when both a shared `rateLimiter` instance and inline `rateLimit`
options are supplied, the engine constructs a fresh limiter from the inline
options; the shared instance is never selected for that invocation. -/
theorem claim_C9_inline_rate_limit_precedence :
    ∀ (o : RateLimitOptions) (providedGiven : Bool),
      selectRateLimiter (some o) providedGiven = .fresh o ∧
      selectRateLimiter (some o) providedGiven ≠ .shared := by
  intro o p
  exact ⟨rfl, by simp [selectRateLimiter]⟩

/-- C3 counterexample: with interval 10 ms, capacity 1, last refill at t = 0
and an acquire-time refill at t = 15, the code stores 15 as the new refill
timestamp, not the 0 + 1·10 = 10 the claim requires — the sub-interval
remainder of 5 ms is discarded, not preserved. -/
theorem claim_C3_counterexample :
    (RateLimiter.refill ⟨1, 10, .none⟩ ⟨0, 0⟩ 15).lastRefill = 15 ∧
    ¬ (RateLimiter.refill ⟨1, 10, .none⟩ ⟨0, 0⟩ 15).lastRefill =
        0 + ((⌊((15 : ℚ) - 0) / 10⌋ : ℤ) : ℚ) * 10 := by
  have hfloor : ⌊((15 : ℚ) - 0) / 10⌋ = 1 := by norm_num
  have h1 : (RateLimiter.refill ⟨1, 10, .none⟩ ⟨0, 0⟩ 15).lastRefill = 15 := by
    simp only [RateLimiter.refill]
    rw [show ((15 : ℚ) - (⟨0, 0⟩ : RateLimiterState).lastRefill) /
        (⟨1, 10, .none⟩ : RateLimitOptions).interval = (15 - 0) / 10 from rfl, hfloor]
    norm_num
  refine ⟨h1, ?_⟩
  rw [h1, hfloor]
  norm_num

/-- C3 amended: on every refill where at least one whole interval has elapsed,
the stored refill timestamp is set to the current time (discarding the
sub-interval remainder), while tokens are credited for exactly the consumed
whole intervals and clamped at capacity. -/
theorem claim_C3_refill_resets_timestamp_to_now :
    ∀ (o : RateLimitOptions) (s : RateLimiterState) (now : ℚ),
      0 < ⌊(now - s.lastRefill) / o.interval⌋ →
      (RateLimiter.refill o s now).lastRefill = now ∧
      (RateLimiter.refill o s now).tokens =
        min o.tokensPerInterval
          (s.tokens + ((⌊(now - s.lastRefill) / o.interval⌋ : ℤ) : ℚ) * o.tokensPerInterval) := by
  intro o s now h
  simp only [RateLimiter.refill]
  rw [if_pos h]
  exact ⟨rfl, rfl⟩

/-- Witness for the amended C3 at interval 10, last refill 0, now 15. -/
theorem claim_C3_refill_resets_timestamp_to_now_witness :
    (RateLimiter.refill ⟨1, 10, .none⟩ ⟨0, 0⟩ 15).lastRefill = 15 :=
  (claim_C3_refill_resets_timestamp_to_now ⟨1, 10, .none⟩ ⟨0, 0⟩ 15
    (by norm_num : (0 : ℤ) < ⌊((15 : ℚ) - 0) / 10⌋)).1

/-- C4: the token count never exceeds the capacity `tokensPerInterval`: a
refill preserves the bound, any sequence of `acquire()` calls preserves the
bound, and after `k` whole idle intervals the available tokens are exactly
`min(capacity, tokens + capacity·k)`. -/
theorem claim_C4_tokens_never_exceed_capacity :
    (∀ (o : RateLimitOptions) (s : RateLimiterState) (now : ℚ),
      s.tokens ≤ o.tokensPerInterval →
      (RateLimiter.refill o s now).tokens ≤ o.tokensPerInterval) ∧
    (∀ (o : RateLimitOptions) (s : RateLimiterState) (evs : List (ℚ × ℚ)),
      s.tokens ≤ o.tokensPerInterval →
      (evs.foldl (RateLimiter.acquireStep o) s).tokens ≤ o.tokensPerInterval) ∧
    (∀ (o : RateLimitOptions) (s : RateLimiterState) (k : ℕ),
      0 < o.interval → s.tokens ≤ o.tokensPerInterval →
      (RateLimiter.refill o s (s.lastRefill + (k : ℚ) * o.interval)).tokens =
        min o.tokensPerInterval (s.tokens + (k : ℚ) * o.tokensPerInterval)) :=
  ⟨refill_tokens_le, foldl_acquire_tokens_le, refill_idle_formula⟩

/-- Witness for C4: capacity 2, interval 1000; from a full bucket, two
acquisitions and a refill after 3 idle intervals keep tokens at 2 = min(2, …). -/
theorem claim_C4_tokens_never_exceed_capacity_witness :
    ((([((0 : ℚ), (0 : ℚ)), (0, 0)] : List (ℚ × ℚ)).foldl
        (RateLimiter.acquireStep ⟨2, 1000, .none⟩) ⟨2, 0⟩).tokens ≤ 2) ∧
    (RateLimiter.refill ⟨2, 1000, .none⟩ ⟨0, 0⟩ (0 + (3 : ℚ) * 1000)).tokens =
      min 2 (0 + (3 : ℚ) * 2) :=
  ⟨claim_C4_tokens_never_exceed_capacity.2.1 ⟨2, 1000, .none⟩ ⟨2, 0⟩ _ (by norm_num),
   claim_C4_tokens_never_exceed_capacity.2.2 ⟨2, 1000, .none⟩ ⟨0, 0⟩ 3 (by norm_num)
     (by norm_num)⟩

/-- C7: for a wait computation with base delay `d > 0` and a random draw
`r ∈ [0, 1)`: full jitter yields a wait in `[0, d)`, equal jitter a wait in
`[d/2, d)`, and no jitter exactly `d`. -/
theorem claim_C7_jitter_bounds :
    ∀ (o : RateLimitOptions) (lastRefill now r : ℚ),
      0 ≤ r → r < 1 → 0 < o.interval - (now - lastRefill) →
      (o.jitterMode = .full →
        0 ≤ RateLimiter.calculateDelay o lastRefill now r ∧
        RateLimiter.calculateDelay o lastRefill now r < o.interval - (now - lastRefill)) ∧
      (o.jitterMode = .equal →
        (o.interval - (now - lastRefill)) / 2 ≤ RateLimiter.calculateDelay o lastRefill now r ∧
        RateLimiter.calculateDelay o lastRefill now r < o.interval - (now - lastRefill)) ∧
      (o.jitterMode = .none →
        RateLimiter.calculateDelay o lastRefill now r = o.interval - (now - lastRefill)) := by
  intro o lastRefill now r hr0 hr1 hd
  refine ⟨fun hm => ?_, fun hm => ?_, fun hm => ?_⟩ <;>
    simp only [RateLimiter.calculateDelay, hm]
  · refine ⟨mul_nonneg hr0 hd.le, ?_⟩
    nlinarith
  · constructor
    · nlinarith [mul_nonneg hd.le hr0]
    · nlinarith [mul_pos hd (by linarith : (0 : ℚ) < 1 - r)]

/-- Witness for C7 under full jitter: interval 10, elapsed 4, draw 1/2. -/
theorem claim_C7_jitter_bounds_witness :
    0 ≤ RateLimiter.calculateDelay ⟨5, 10, .full⟩ 0 4 (1/2) ∧
    RateLimiter.calculateDelay ⟨5, 10, .full⟩ 0 4 (1/2) < 10 - (4 - 0) :=
  (claim_C7_jitter_bounds ⟨5, 10, .full⟩ 0 4 (1/2) (by norm_num) (by norm_num)
    (by norm_num)).1 rfl

/-- C8: whenever the direct `retryAfterMs` field is unusable, the header block
yields nothing, and the picked status is 429 or 503, the extractor returns the
fixed default hint of 1000 ms; moreover a header accessor that throws is
swallowed into "no header value". -/
theorem claim_C8_status_fallback_default_hint :
    (∀ (env : JsEnv) (e : ErrorWithResponseLike),
      toFiniteNumber env e.retryAfterMs = none →
      (pickHeaders e).bind (headerHint env) = none →
      (pickStatus e = some 429 ∨ pickStatus e = some 503) →
      extractRetryAfterMs env (some e) = some 1000) ∧
    (∀ (get : String → HeaderGetResult) (key : String),
      get key = HeaderGetResult.throws →
      getHeader (.headersLike get) key = none) := by
  constructor
  · intro env e h1 h2 h3
    unfold extractRetryAfterMs
    simp only [h1, h2]
    rw [if_pos h3]
  · intro get key h
    simp only [getHeader, h]

/-- Witness for C8: a throwing `Headers.get` accessor plus a bare 429 status
yields the default 1000 ms hint. -/
theorem claim_C8_status_fallback_default_hint_witness :
    extractRetryAfterMs ⟨0, fun _ => none, fun _ => none⟩
      (some { retryAfterMs := .undef,
              headers := some (.headersLike fun _ => .throws),
              status := some 429 }) = some 1000 :=
  claim_C8_status_fallback_default_hint.1 ⟨0, fun _ => none, fun _ => none⟩
    { retryAfterMs := .undef,
      headers := some (.headersLike fun _ => .throws),
      status := some 429 }
    rfl rfl (Or.inl rfl)

/-- C10: a `Retry-After` header holding a negative numeric string yields a hint
of 0 ms (seconds scaled and clamped at zero), while a `Retry-After` header
holding a past HTTP date yields no hint at all (when no other signal is
present) — the numeric and date paths treat stale values asymmetrically. -/
theorem claim_C10_stale_signal_asymmetry :
    (∀ (env : JsEnv) (e : ErrorWithResponseLike) (hs : HeaderContainer) (s : String) (n : ℤ),
      toFiniteNumber env e.retryAfterMs = none →
      pickHeaders e = some hs →
      getHeader hs "Retry-After" = some s →
      env.parseNum s = some n → n < 0 →
      extractRetryAfterMs env (some e) = some 0) ∧
    (∀ (env : JsEnv) (e : ErrorWithResponseLike) (hs : HeaderContainer) (s : String) (d : ℤ),
      toFiniteNumber env e.retryAfterMs = none →
      pickHeaders e = some hs →
      getHeader hs "Retry-After" = some s →
      env.parseNum s = none →
      env.dateParse s = some d → d - env.now ≤ 0 →
      resetHint env hs = none →
      pickStatus e = none →
      extractRetryAfterMs env (some e) = none) := by
  constructor
  · intro env e hs s n h1 h2 h3 h4 h5
    have hmax : max 0 (n * 1000) = 0 := by omega
    have hra : retryAfterHint env hs = some 0 := by
      unfold retryAfterHint
      rw [h3]
      simp only [Option.some_orElse, h4, hmax]
    unfold extractRetryAfterMs
    simp only [h1, h2, Option.some_bind]
    unfold headerHint
    rw [hra]
    simp only [Option.some_orElse]
  · intro env e hs s d h1 h2 h3 h4 h5 h6 h7 h8
    have hra : retryAfterHint env hs = none := by
      unfold retryAfterHint
      rw [h3]
      simp only [Option.some_orElse, h4, h5]
      rw [if_neg (by omega)]
    unfold extractRetryAfterMs
    simp only [h1, h2, Option.some_bind]
    unfold headerHint
    rw [hra]
    simp only [Option.none_orElse, h7, h8]
    simp

/-- Witness for C10: `Retry-After: "-5"` (parsed to −5 s) yields 0 ms;
`Retry-After: "past"` (parsed as a date 100 ms before now) yields no hint. -/
theorem claim_C10_stale_signal_asymmetry_witness :
    extractRetryAfterMs
      ⟨0, fun _ => none, fun s => if s = "-5" then some (-5) else none⟩
      (some { headers := some (.headersLike fun k =>
        if k = "Retry-After" then .val (some "-5") else .val none) }) = some 0 ∧
    extractRetryAfterMs
      ⟨0, fun s => if s = "past" then some (-100) else none, fun _ => none⟩
      (some { headers := some (.headersLike fun k =>
        if k = "Retry-After" then .val (some "past") else .val none) }) = none :=
  ⟨claim_C10_stale_signal_asymmetry.1
      ⟨0, fun _ => none, fun s => if s = "-5" then some (-5) else none⟩
      { headers := some (.headersLike fun k =>
          if k = "Retry-After" then .val (some "-5") else .val none) }
      (.headersLike fun k => if k = "Retry-After" then .val (some "-5") else .val none)
      "-5" (-5) rfl rfl (by decide) (by decide) (by norm_num),
   claim_C10_stale_signal_asymmetry.2
      ⟨0, fun s => if s = "past" then some (-100) else none, fun _ => none⟩
      { headers := some (.headersLike fun k =>
          if k = "Retry-After" then .val (some "past") else .val none) }
      (.headersLike fun k => if k = "Retry-After" then .val (some "past") else .val none)
      "past" (-100) rfl rfl (by decide) (by decide) (by decide) (by norm_num)
      (by decide) rfl⟩

end RetryTs
